import Mathlib

/-!
Verification of the virtual-node dispatch layer (`src/virtual_dom/vnode.rs`)
of a virtual-DOM reconciliation core.

The repository's own file defines the `VNode` sum type and its dispatching
implementations of `get_node`, `remove`, `apply` (the `VDiff` contract),
`Debug` formatting, `PartialEq`, and the `From` conversions.  The inner
variant types (`VTag`, `VText`, `VComp`) and the DOM live outside the given
sources, so their behaviour is modelled from the specification where a claim
needs it; every such definition is marked `Modelled from the spec:` in its
doc comment.

DOM nodes are opaque handles (`Node := Nat`); the DOM mutation API is
modelled as a trace of emitted operations (`DomOp`), and a parent element as
its list of child handles.  Fallible operations (`unimplemented!`,
`.expect(..)`) return `Except String`.
-/

namespace VDom

/-- An opaque handle to a live DOM node (`stdweb::web::Node`). -/
abbrev Node : Type := Nat

/-- Modelled from the spec: the Text Node variant payload (`VText`, not under
the given sources) — a leaf text run plus the optional binding to the live
text node established by reconciliation. -/
structure VText where
  text : String
  reference : Option Node
deriving DecidableEq

/-- Modelled from the spec: the Component Node variant payload (`VComp`, not
under the given sources) — an opaque mounted sub-application, abstracted to
an opaque payload plus the optional binding to its live node. -/
structure VComp where
  data : Nat
  reference : Option Node
deriving DecidableEq

/-- Modelled from the spec: the Rendering Environment (`ScopeEnv`) is an
opaque capability bundle; no claim inspects it, so it carries no fields. -/
structure ScopeEnv where

mutual

/-- `VNode<CTX, COMP>`: the closed sum of the four node kinds
(`VTag`/`VText`/`VComp`/`VRef`), as declared in the source. -/
inductive VNode : Type where
  | vtag : VTag → VNode
  | vtext : VText → VNode
  | vcomp : VComp → VNode
  | vref : Node → VNode

/-- Modelled from the spec: the Element Node variant payload (`VTag`, not
under the given sources) — a tag name, attributes, ordered children, and the
optional binding to the live element established by reconciliation. -/
inductive VTag : Type where
  | mk : String → List (String × String) → List VNode → Option Node → VTag

end

/-- The tag name of an Element Node. -/
def VTag.tag : VTag → String
  | .mk t _ _ _ => t

/-- The attributes of an Element Node. -/
def VTag.attrs : VTag → List (String × String)
  | .mk _ a _ _ => a

/-- The ordered children of an Element Node. -/
def VTag.childs : VTag → List VNode
  | .mk _ _ c _ => c

/-- The live-node binding of an Element Node (`None` until reconciled). -/
def VTag.reference : VTag → Option Node
  | .mk _ _ _ r => r

mutual

/-- `PartialEq::eq` for `VNode` as written in the source: `VTag`/`VTag` and
`VText`/`VText` delegate to the variant's comparison, `VComp`/`VComp` and
`VRef`/`VRef` are `false` (both marked `TODO` in the source), and every
cross-variant comparison is `false`. -/
def VNode.eq : VNode → VNode → Bool
  | .vtag a, .vtag b => VTag.eqTag a b
  | .vtext a, .vtext b => a.text == b.text
  | .vcomp _, _ => false
  | .vref _, _ => false
  | _, _ => false

/-- Modelled from the spec: `PartialEq` for the Element Node (not under the
given sources) compares by structurally identical content — tag name,
attributes and children (children compared with the Node Variant equality
itself, which the spec calls structural but variant-asymmetric); the
live-node binding is not content and is ignored. -/
def VTag.eqTag : VTag → VTag → Bool
  | .mk t1 a1 c1 _, .mk t2 a2 c2 _ => t1 == t2 && a1 == a2 && VNode.eqList c1 c2

/-- Pointwise `VNode.eq` over child lists (unequal lengths are unequal). -/
def VNode.eqList : List VNode → List VNode → Bool
  | [], [] => true
  | x :: xs, y :: ys => VNode.eq x y && VNode.eqList xs ys
  | _, _ => false

end

/-- Discriminator for the four variants of `VNode`. -/
def VNode.variantTag : VNode → Nat
  | .vtag _ => 0
  | .vtext _ => 1
  | .vcomp _ => 2
  | .vref _ => 3

mutual

/-- Spec-side reading of "structurally identical content" for two Node
Variants (spec §3/§8): Element/Element compare tag, attributes and children,
Text/Text compare their text, Component/Component and ExternalRef/ExternalRef
are never identical, and distinct variants are never identical. -/
def VNode.contentIdentical : VNode → VNode → Prop
  | .vtag a, .vtag b => VTag.contentIdentical a b
  | .vtext a, .vtext b => a.text = b.text
  | _, _ => False

/-- Spec-side reading of structurally identical content for Element Nodes:
equal tag, equal attributes, pointwise structurally identical children. -/
def VTag.contentIdentical : VTag → VTag → Prop
  | .mk t1 a1 c1 _, .mk t2 a2 c2 _ => t1 = t2 ∧ a1 = a2 ∧ VNode.contentIdenticalList c1 c2

/-- Pointwise structural content identity over child lists. -/
def VNode.contentIdenticalList : List VNode → List VNode → Prop
  | [], [] => True
  | x :: xs, y :: ys => VNode.contentIdentical x y ∧ VNode.contentIdenticalList xs ys
  | _, _ => False

end

/-- Modelled from the spec: `VDiff::get_node` of the Text Node (not under the
given sources) returns the binding established by reconciliation, if any. -/
def VText.get_node (v : VText) : Option Node := v.reference

/-- Modelled from the spec: `VDiff::get_node` of the Component Node (not
under the given sources) returns its binding, if any. -/
def VComp.get_node (v : VComp) : Option Node := v.reference

/-- Modelled from the spec: `VDiff::get_node` of the Element Node (not under
the given sources) returns its binding, if any. -/
def VTag.get_node (t : VTag) : Option Node := t.reference

/-- `VDiff::get_node` for `VNode` as written in the source: delegate to the
active variant; a `VRef` returns its wrapped node, cloned (`to_owned`). -/
def VNode.get_node : VNode → Option Node
  | .vtag t => t.get_node
  | .vtext v => v.get_node
  | .vcomp c => c.get_node
  | .vref n => some n

/-- A parent element of the render target, modelled as its list of child
node handles. -/
abbrev ParentElement : Type := List Node

/-- The DOM's `remove_child`: detaches `child` from the parent and returns
the updated child list, or `none` when `child` is not a child of the parent
(the DOM reports an error, which `.expect(..)` turns into a panic). -/
def remove_child (parent : ParentElement) (child : Node) : Option ParentElement :=
  if child ∈ parent then some (parent.erase child) else none

/-- Modelled from the spec: detaching a variant's bound target node from the
parent — a fatal invariant violation when the bound node is not actually a
child of the parent; a node never reconciled has nothing to detach. -/
def detachBound (reference : Option Node) (parent : ParentElement) : Except String ParentElement :=
  match reference with
  | some r =>
    match remove_child parent r with
    | some rest => .ok rest
    | none => .error "removed node is not a child of the parent"
  | none => .ok parent

/-- Modelled from the spec: `VDiff::remove` of the Element Node (not under
the given sources). -/
def VTag.remove (t : VTag) (parent : ParentElement) : Except String ParentElement :=
  detachBound t.reference parent

/-- Modelled from the spec: `VDiff::remove` of the Text Node (not under the
given sources). -/
def VText.remove (v : VText) (parent : ParentElement) : Except String ParentElement :=
  detachBound v.reference parent

/-- Modelled from the spec: `VDiff::remove` of the Component Node (not under
the given sources). -/
def VComp.remove (v : VComp) (parent : ParentElement) : Except String ParentElement :=
  detachBound v.reference parent

/-- `VDiff::remove` for `VNode` as written in the source: delegate to the
active variant; a `VRef` calls the DOM's `remove_child` directly and panics
(`.expect("can\x27t remove node by VRef")`) when the node is absent. -/
def VNode.remove : VNode → ParentElement → Except String ParentElement
  | .vtag t, parent => t.remove parent
  | .vtext v, parent => v.remove parent
  | .vcomp c, parent => c.remove parent
  | .vref n, parent =>
    match remove_child parent n with
    | some rest => .ok rest
    | none => .error "can\x27t remove node by VRef"

/-- A mutation emitted against the render target during reconciliation. -/
inductive DomOp : Type where
  | createNode (id : Node)
  | removeNode (id : Node)
  | setText (id : Node) (text : String)
  | patchAttrs (id : Node) (attrs : List (String × String))
deriving DecidableEq

/-- Does this mutation create (and insert) a target node? -/
def DomOp.isCreate : DomOp → Bool
  | .createNode _ => true
  | _ => false

/-- Does this mutation remove a target node? -/
def DomOp.isRemove : DomOp → Bool
  | .removeNode _ => true
  | _ => false

/-- Cross-variant replacement (spec §4.2): before mounting fresh, the
previous binding's target node — if there is one — is removed from the
parent. -/
def removePrevOps (prev : Option VNode) : List DomOp :=
  match prev with
  | some p =>
    match p.get_node with
    | some r => [DomOp.removeNode r]
    | none => []
  | none => []

mutual

/-- `VDiff::apply` for `VNode`: the source dispatches to the active
variant's own apply and fails fatally (`unimplemented!`) for `VRef`.  The
variants' own apply implementations are not under the given sources and are
modelled from the spec §4.2 policy: same-variant reuse (fine-grained
in-place update, keeping the previous binding), cross-variant or fresh mount
(remove the previous binding's node, then create and insert a new one), and
positional pairing of children.  State is the next fresh handle; the emitted
`DomOp` trace records every render-target mutation. -/
def VNode.apply : VNode → Node → Option VNode → ScopeEnv → Nat →
    Except String (VNode × Nat × List DomOp)
  | .vtag (.mk tg a cs _), _, prev, env, fresh =>
    match prev with
    | some (.vtag (.mk ptg pa pcs (some r))) =>
      if ptg == tg then
        match VNode.applyChildren cs pcs r env fresh with
        | .ok (cs2, fresh2, ops) =>
          .ok (.vtag (.mk tg a cs2 (some r)), fresh2,
            (if pa == a then [] else [DomOp.patchAttrs r a]) ++ ops)
        | .error e => .error e
      else
        match VNode.applyChildren cs [] fresh env (fresh + 1) with
        | .ok (cs2, fresh2, ops) =>
          .ok (.vtag (.mk tg a cs2 (some fresh)), fresh2,
            DomOp.removeNode r :: DomOp.createNode fresh :: ops)
        | .error e => .error e
    | _ =>
      match VNode.applyChildren cs [] fresh env (fresh + 1) with
      | .ok (cs2, fresh2, ops) =>
        .ok (.vtag (.mk tg a cs2 (some fresh)), fresh2,
          removePrevOps prev ++ DomOp.createNode fresh :: ops)
      | .error e => .error e
  | .vtext ⟨s, _⟩, _, prev, _, fresh =>
    match prev with
    | some (.vtext ⟨ps, some r⟩) =>
      .ok (.vtext ⟨s, some r⟩, fresh, if ps == s then [] else [DomOp.setText r s])
    | _ =>
      .ok (.vtext ⟨s, some fresh⟩, fresh + 1,
        removePrevOps prev ++ [DomOp.createNode fresh])
  | .vcomp ⟨d, _⟩, _, prev, _, fresh =>
    match prev with
    | some (.vcomp ⟨_, some r⟩) =>
      .ok (.vcomp ⟨d, some r⟩, fresh, [])
    | _ =>
      .ok (.vcomp ⟨d, some fresh⟩, fresh + 1,
        removePrevOps prev ++ [DomOp.createNode fresh])
  | .vref _, _, _, _, _ => .error "node can\x27t be rendered now"

/-- Positional child reconciliation (spec §4.2): pair new children against
old children left to right; surplus old children have their bound nodes
removed; surplus new children mount fresh. -/
def VNode.applyChildren : List VNode → List VNode → Node → ScopeEnv → Nat →
    Except String (List VNode × Nat × List DomOp)
  | [], olds, _, _, fresh =>
    .ok ([], fresh, olds.filterMap (fun o => o.get_node.map DomOp.removeNode))
  | n :: ns, [], parent, env, fresh =>
    match VNode.apply n parent none env fresh with
    | .ok (n2, fresh2, ops1) =>
      match VNode.applyChildren ns [] parent env fresh2 with
      | .ok (ns2, fresh3, ops2) => .ok (n2 :: ns2, fresh3, ops1 ++ ops2)
      | .error e => .error e
    | .error e => .error e
  | n :: ns, o :: os, parent, env, fresh =>
    match VNode.apply n parent (some o) env fresh with
    | .ok (n2, fresh2, ops1) =>
      match VNode.applyChildren ns os parent env fresh2 with
      | .ok (ns2, fresh3, ops2) => .ok (n2 :: ns2, fresh3, ops1 ++ ops2)
      | .error e => .error e
    | .error e => .error e

end

/-- Modelled from the spec: the Element Node's own Debug formatting (not
under the given sources); only the fact of delegation matters to the claims,
not the exact text. -/
def VTag.fmtDebug (t : VTag) : String := "VTag(" ++ t.tag ++ ")"

/-- Modelled from the spec: the Text Node's own Debug formatting (not under
the given sources); only the fact of delegation matters to the claims. -/
def VText.fmtDebug (v : VText) : String := "VText(" ++ v.text ++ ")"

/-- `fmt::Debug` for `VNode` as written in the source: `VTag` and `VText`
delegate to their own formatting, `VComp` prints the fixed placeholder
`"Component<>"`, `VRef` the fixed placeholder `"NodeReference<>"`. -/
def VNode.fmtDebug : VNode → String
  | .vtag t => t.fmtDebug
  | .vtext v => v.fmtDebug
  | .vcomp _ => "Component<>"
  | .vref _ => "NodeReference<>"

/-- `From<VText> for VNode`: wrap unchanged. -/
def VNode.fromVText (vtext : VText) : VNode := .vtext vtext

/-- `From<VTag> for VNode`: wrap unchanged. -/
def VNode.fromVTag (vtag : VTag) : VNode := .vtag vtag

/-- `From<VComp> for VNode`: wrap unchanged. -/
def VNode.fromVComp (vcomp : VComp) : VNode := .vcomp vcomp

/-- Modelled from the spec: `VText::new` (not under the given sources) holds
the given text with no binding yet. -/
def VText.new (text : String) : VText := ⟨text, none⟩

/-- `From<T: ToString> for VNode`: a text-renderable value becomes a Text
Node holding its string form. -/
def VNode.fromToString {α : Type} [ToString α] (value : α) : VNode :=
  .vtext (VText.new (toString value))

/-- `From<&Renderable> for VNode`: a value exposing a `view()` render
contract converts to exactly the node `view()` returns.  The `Renderable`
trait is modelled by its `view` function. -/
def VNode.fromRenderable {α : Type} (view : α → VNode) (value : α) : VNode :=
  view value

mutual

/-- Does the tree contain no `VRef` (ExternalRef) node?  Only such trees are
diffable: `apply` on a `VRef` is fatal by design. -/
def VNode.noVRef : VNode → Bool
  | .vtag (.mk _ _ cs _) => VNode.noVRefList cs
  | .vtext _ => true
  | .vcomp _ => true
  | .vref _ => false

/-- `noVRef` over a child list. -/
def VNode.noVRefList : List VNode → Bool
  | [] => true
  | n :: ns => VNode.noVRef n && VNode.noVRefList ns

end

mutual

/-- Erase every live-node binding in the tree: the content-preserving "fresh
instance" of a tree, as produced anew by a render pass. -/
def VNode.stripRefs : VNode → VNode
  | .vtag (.mk t a cs _) => .vtag (.mk t a (VNode.stripRefsList cs) none)
  | .vtext ⟨s, _⟩ => .vtext ⟨s, none⟩
  | .vcomp ⟨d, _⟩ => .vcomp ⟨d, none⟩
  | .vref n => .vref n

/-- `stripRefs` over a child list. -/
def VNode.stripRefsList : List VNode → List VNode
  | [] => []
  | n :: ns => VNode.stripRefs n :: VNode.stripRefsList ns

end

mutual

/-- Is every node of the tree bound to a live target node (as after a
successful reconciliation pass)? -/
def VNode.allBound : VNode → Bool
  | .vtag (.mk _ _ cs r) => r.isSome && VNode.allBoundList cs
  | .vtext ⟨_, r⟩ => r.isSome
  | .vcomp ⟨_, r⟩ => r.isSome
  | .vref _ => true

/-- `allBound` over a child list. -/
def VNode.allBoundList : List VNode → Bool
  | [] => true
  | n :: ns => VNode.allBound n && VNode.allBoundList ns

end

/-- The number of target-node creations in an emitted mutation trace. -/
def creations (ops : List DomOp) : Nat := ops.countP (fun o => o.isCreate)

/-- The number of target-node removals in an emitted mutation trace. -/
def removals (ops : List DomOp) : Nat := ops.countP (fun o => o.isRemove)

mutual

theorem VNode.eq_iff_contentIdentical :
    ∀ a b : VNode, VNode.eq a b = true ↔ VNode.contentIdentical a b
  | .vtag a, .vtag b => by
    simp only [VNode.eq, VNode.contentIdentical]
    exact VTag.eqTag_iff_contentIdentical a b
  | .vtext a, .vtext b => by
    simp [VNode.eq, VNode.contentIdentical]
  | .vtag _, .vtext _ => by simp [VNode.eq, VNode.contentIdentical]
  | .vtag _, .vcomp _ => by simp [VNode.eq, VNode.contentIdentical]
  | .vtag _, .vref _ => by simp [VNode.eq, VNode.contentIdentical]
  | .vtext _, .vtag _ => by simp [VNode.eq, VNode.contentIdentical]
  | .vtext _, .vcomp _ => by simp [VNode.eq, VNode.contentIdentical]
  | .vtext _, .vref _ => by simp [VNode.eq, VNode.contentIdentical]
  | .vcomp _, b => by cases b <;> simp [VNode.eq, VNode.contentIdentical]
  | .vref _, b => by cases b <;> simp [VNode.eq, VNode.contentIdentical]

theorem VTag.eqTag_iff_contentIdentical :
    ∀ a b : VTag, VTag.eqTag a b = true ↔ VTag.contentIdentical a b
  | .mk t1 a1 c1 r1, .mk t2 a2 c2 r2 => by
    simp only [VTag.eqTag, VTag.contentIdentical, Bool.and_eq_true, beq_iff_eq,
      VNode.eqList_iff_contentIdenticalList c1 c2, and_assoc]

theorem VNode.eqList_iff_contentIdenticalList :
    ∀ xs ys : List VNode, VNode.eqList xs ys = true ↔ VNode.contentIdenticalList xs ys
  | [], [] => by simp [VNode.eqList, VNode.contentIdenticalList]
  | [], _ :: _ => by simp [VNode.eqList, VNode.contentIdenticalList]
  | _ :: _, [] => by simp [VNode.eqList, VNode.contentIdenticalList]
  | x :: xs, y :: ys => by
    simp only [VNode.eqList, VNode.contentIdenticalList, Bool.and_eq_true]
    exact and_congr (VNode.eq_iff_contentIdentical x y)
      (VNode.eqList_iff_contentIdenticalList xs ys)

end

mutual

theorem VNode.eq_comm : ∀ a b : VNode, VNode.eq a b = VNode.eq b a
  | .vtag a, .vtag b => by
    simp only [VNode.eq]
    exact VTag.eqTag_comm a b
  | .vtext a, .vtext b => by
    simp only [VNode.eq]
    exact Bool.beq_comm
  | .vtag _, .vtext _ => by simp [VNode.eq]
  | .vtag _, .vcomp _ => by simp [VNode.eq]
  | .vtag _, .vref _ => by simp [VNode.eq]
  | .vtext _, .vtag _ => by simp [VNode.eq]
  | .vtext _, .vcomp _ => by simp [VNode.eq]
  | .vtext _, .vref _ => by simp [VNode.eq]
  | .vcomp _, b => by cases b <;> simp [VNode.eq]
  | .vref _, b => by cases b <;> simp [VNode.eq]

theorem VTag.eqTag_comm : ∀ a b : VTag, VTag.eqTag a b = VTag.eqTag b a
  | .mk t1 a1 c1 r1, .mk t2 a2 c2 r2 => by
    simp only [VTag.eqTag]
    rw [VNode.eqList_comm c1 c2, @Bool.beq_comm _ _ _ t1 t2, @Bool.beq_comm _ _ _ a1 a2]

theorem VNode.eqList_comm : ∀ xs ys : List VNode, VNode.eqList xs ys = VNode.eqList ys xs
  | [], [] => rfl
  | [], _ :: _ => rfl
  | _ :: _, [] => rfl
  | x :: xs, y :: ys => by
    simp only [VNode.eqList]
    rw [VNode.eq_comm x y, VNode.eqList_comm xs ys]

end

/-- C1: equality on the Node Variant is decided exactly as specified —
`Element(a) == Element(b)` iff their content is structurally identical,
`Text(a) == Text(b)` iff their text is equal, `Component == Component` and
`ExternalRef == ExternalRef` are always false, and any comparison between
two different variants is false. -/
theorem vnode_eq_decided_as_specified :
    (∀ a b : VTag, VNode.eq (.vtag a) (.vtag b) = true ↔ VTag.contentIdentical a b)
    ∧ (∀ a b : VText, VNode.eq (.vtext a) (.vtext b) = true ↔ a.text = b.text)
    ∧ (∀ a b : VComp, VNode.eq (.vcomp a) (.vcomp b) = false)
    ∧ (∀ m n : Node, VNode.eq (.vref m) (.vref n) = false)
    ∧ (∀ a b : VNode, a.variantTag ≠ b.variantTag → VNode.eq a b = false) := by
  refine ⟨?_, ?_, ?_, ?_, ?_⟩
  · intro a b
    simpa [VNode.contentIdentical] using VNode.eq_iff_contentIdentical (.vtag a) (.vtag b)
  · intro a b
    simp [VNode.eq]
  · intro a b
    simp [VNode.eq]
  · intro m n
    simp [VNode.eq]
  · intro a b h
    cases a <;> cases b <;> simp [VNode.eq] <;> simp [VNode.variantTag] at h

/-- Witness for C1: a concrete cross-variant comparison, through the
theorem's last clause. -/
theorem vnode_eq_decided_as_specified_witness :
    VNode.eq (.vtext ⟨"a", none⟩) (.vref 0) = false :=
  vnode_eq_decided_as_specified.2.2.2.2 (.vtext ⟨"a", none⟩) (.vref 0) (by decide)

/-- C9: equality on the Node Variant is symmetric — `a == b` iff `b == a`,
so in particular every cross-variant comparison is false in both
directions. -/
theorem vnode_eq_symmetric : ∀ a b : VNode, VNode.eq a b = VNode.eq b a :=
  fun a b => VNode.eq_comm a b

/-- C2: applying an `ExternalRef` (`VRef`) node fails fatally
(`unimplemented!`) for every wrapped node, parent, previous node and
rendering environment; the error result carries no updated binding, no state
change and no emitted render-target mutation, so the failure is neither a
silent no-op nor a mutation of the render target. -/
theorem vref_apply_always_fatal :
    ∀ (n : Node) (parent : Node) (prev : Option VNode) (env : ScopeEnv) (fresh : Nat),
      VNode.apply (.vref n) parent prev env fresh =
        .error "node can\x27t be rendered now" :=
  fun _ _ _ _ _ => rfl

/-- C4: `get_node` delegates to the active variant, returning the binding
established by reconciliation (`none` if never reconciled); for every
`ExternalRef` node it returns `some` of the wrapped handle — the handle
value itself, duplicated into the result while the node (taken by shared
reference) keeps its own copy. -/
theorem get_node_dispatch :
    (∀ t : VTag, VNode.get_node (.vtag t) = t.reference)
    ∧ (∀ v : VText, VNode.get_node (.vtext v) = v.reference)
    ∧ (∀ c : VComp, VNode.get_node (.vcomp c) = c.reference)
    ∧ (∀ n : Node, VNode.get_node (.vref n) = some n) :=
  ⟨fun _ => rfl, fun _ => rfl, fun _ => rfl, fun _ => rfl⟩

/-- C6: conversions into the Node Variant — a string-convertible value
becomes a Text node holding its string form; a value already typed as
Element, Text or Component wraps unchanged; a value exposing a `view()`
render contract converts to exactly the node `view()` returns. -/
theorem conversions_into_vnode :
    (∀ v : VText, VNode.fromVText v = .vtext v)
    ∧ (∀ t : VTag, VNode.fromVTag t = .vtag t)
    ∧ (∀ c : VComp, VNode.fromVComp c = .vcomp c)
    ∧ (∀ (α : Type) (inst : ToString α) (x : α),
        @VNode.fromToString α inst x = .vtext ⟨@toString α inst x, none⟩)
    ∧ (∀ (α : Type) (view : α → VNode) (x : α), VNode.fromRenderable view x = view x) :=
  ⟨fun _ => rfl, fun _ => rfl, fun _ => rfl, fun _ _ _ => rfl, fun _ _ _ => rfl⟩

/-- C7: Debug formatting delegates to the Element or Text variant's own
formatting and renders fixed opaque placeholders for Component and
ExternalRef nodes. -/
theorem debug_fmt_dispatch :
    (∀ t : VTag, VNode.fmtDebug (.vtag t) = t.fmtDebug)
    ∧ (∀ v : VText, VNode.fmtDebug (.vtext v) = v.fmtDebug)
    ∧ (∀ c : VComp, VNode.fmtDebug (.vcomp c) = "Component<>")
    ∧ (∀ n : Node, VNode.fmtDebug (.vref n) = "NodeReference<>") :=
  ⟨fun _ => rfl, fun _ => rfl, fun _ => rfl, fun _ => rfl⟩

/-- C10: the Debug output of Component and ExternalRef nodes is independent
of the wrapped value — any two Component nodes format identically, and any
two ExternalRef nodes format identically, so no internal state flows into
the formatted text. -/
theorem debug_fmt_opaque_independent :
    (∀ c1 c2 : VComp, VNode.fmtDebug (.vcomp c1) = VNode.fmtDebug (.vcomp c2))
    ∧ (∀ n1 n2 : Node, VNode.fmtDebug (.vref n1) = VNode.fmtDebug (.vref n2)) :=
  ⟨fun _ _ => rfl, fun _ _ => rfl⟩

/-- C3: `remove` delegates to the active variant for Element, Text and
Component nodes; for an `ExternalRef` it detaches the wrapped node from the
given parent directly when it is a child, and fails fatally (the source's
`.expect("can\x27t remove node by VRef")`) when it is not. -/
theorem remove_dispatch_and_vref_detach :
    (∀ (t : VTag) (parent : ParentElement), VNode.remove (.vtag t) parent = t.remove parent)
    ∧ (∀ (v : VText) (parent : ParentElement), VNode.remove (.vtext v) parent = v.remove parent)
    ∧ (∀ (c : VComp) (parent : ParentElement), VNode.remove (.vcomp c) parent = c.remove parent)
    ∧ (∀ (n : Node) (parent : ParentElement), n ∈ parent →
        VNode.remove (.vref n) parent = .ok (parent.erase n))
    ∧ (∀ (n : Node) (parent : ParentElement), n ∉ parent →
        VNode.remove (.vref n) parent = .error "can\x27t remove node by VRef") := by
  refine ⟨fun _ _ => rfl, fun _ _ => rfl, fun _ _ => rfl, ?_, ?_⟩
  · intro n parent h
    simp [VNode.remove, remove_child, h]
  · intro n parent h
    simp [VNode.remove, remove_child, h]

/-- Witness for C3: a concrete detach that succeeds and a concrete detach of
a non-child that fails fatally. -/
theorem remove_dispatch_and_vref_detach_witness :
    VNode.remove (.vref 1) [1, 2] = .ok [2]
    ∧ VNode.remove (.vref 3) [1, 2] = .error "can\x27t remove node by VRef" :=
  ⟨remove_dispatch_and_vref_detach.2.2.2.1 1 [1, 2] (by decide),
   remove_dispatch_and_vref_detach.2.2.2.2 3 [1, 2] (by decide)⟩

mutual

theorem VNode.stripRefs_stripRefs : ∀ v : VNode, v.stripRefs.stripRefs = v.stripRefs
  | .vtag (.mk t a cs r) => by
    simp only [VNode.stripRefs, VNode.stripRefsList_stripRefsList cs]
  | .vtext ⟨s, r⟩ => rfl
  | .vcomp ⟨d, r⟩ => rfl
  | .vref n => rfl

theorem VNode.stripRefsList_stripRefsList :
    ∀ ns : List VNode, VNode.stripRefsList (VNode.stripRefsList ns) = VNode.stripRefsList ns
  | [] => rfl
  | n :: ns => by
    simp only [VNode.stripRefsList, VNode.stripRefs_stripRefs n,
      VNode.stripRefsList_stripRefsList ns]

end

mutual

theorem VNode.noVRef_stripRefs : ∀ v : VNode, v.stripRefs.noVRef = v.noVRef
  | .vtag (.mk t a cs r) => by
    simp only [VNode.stripRefs, VNode.noVRef, VNode.noVRefList_stripRefsList cs]
  | .vtext ⟨s, r⟩ => rfl
  | .vcomp _ => rfl
  | .vref _ => rfl

theorem VNode.noVRefList_stripRefsList :
    ∀ ns : List VNode, VNode.noVRefList (VNode.stripRefsList ns) = VNode.noVRefList ns
  | [] => rfl
  | n :: ns => by
    simp only [VNode.stripRefsList, VNode.noVRefList, VNode.noVRef_stripRefs n,
      VNode.noVRefList_stripRefsList ns]

end

/-- A fully bound tree's root has a live binding to return. -/
theorem allBound_get_node (v : VNode) (h : v.allBound = true) : ∃ r, v.get_node = some r := by
  cases v with
  | vtag t =>
    cases t with
    | mk tg a cs r =>
      simp only [VNode.allBound, Bool.and_eq_true, Option.isSome_iff_exists] at h
      obtain ⟨⟨x, hx⟩, _⟩ := h
      exact ⟨x, by simp [VNode.get_node, VTag.get_node, VTag.reference, hx]⟩
  | vtext x =>
    cases x with
    | mk s r =>
      simp only [VNode.allBound, Option.isSome_iff_exists] at h
      obtain ⟨x, hx⟩ := h
      exact ⟨x, by simp [VNode.get_node, VText.get_node, hx]⟩
  | vcomp c =>
    cases c with
    | mk d r =>
      simp only [VNode.allBound, Option.isSome_iff_exists] at h
      obtain ⟨x, hx⟩ := h
      exact ⟨x, by simp [VNode.get_node, VComp.get_node, hx]⟩
  | vref n => exact ⟨n, rfl⟩

mutual

theorem VNode.apply_ok_shape :
    ∀ (v : VNode) (p : Node) (prev : Option VNode) (env : ScopeEnv) (f : Nat)
      (v2 : VNode) (f2 : Nat) (ops : List DomOp),
      VNode.apply v p prev env f = .ok (v2, f2, ops) →
      v2.stripRefs = v.stripRefs ∧ v2.allBound = true
  | .vtag (.mk tg a cs r0), p, prev, env, f, v2, f2, ops => by
    intro h
    simp only [VNode.apply] at h
    split at h
    · rename_i pv ptg pa pcs r
      split at h
      · split at h
        · rename_i cs2 fresh2 ops2 heq
          simp only [Except.ok.injEq, Prod.mk.injEq] at h
          obtain ⟨hv, _, _⟩ := h
          subst hv
          obtain ⟨hs, hb⟩ := VNode.applyChildren_ok_shape cs pcs r env f cs2 fresh2 ops2 heq
          simp [VNode.stripRefs, VNode.allBound, hs, hb]
        · simp at h
      · split at h
        · rename_i cs2 fresh2 ops2 heq
          simp only [Except.ok.injEq, Prod.mk.injEq] at h
          obtain ⟨hv, _, _⟩ := h
          subst hv
          obtain ⟨hs, hb⟩ :=
            VNode.applyChildren_ok_shape cs [] f env (f + 1) cs2 fresh2 ops2 heq
          simp [VNode.stripRefs, VNode.allBound, hs, hb]
        · simp at h
    · split at h
      · rename_i cs2 fresh2 ops2 heq
        simp only [Except.ok.injEq, Prod.mk.injEq] at h
        obtain ⟨hv, _, _⟩ := h
        subst hv
        obtain ⟨hs, hb⟩ :=
          VNode.applyChildren_ok_shape cs [] f env (f + 1) cs2 fresh2 ops2 heq
        simp [VNode.stripRefs, VNode.allBound, hs, hb]
      · simp at h
  | .vtext ⟨s, r0⟩, p, prev, env, f, v2, f2, ops => by
    intro h
    simp only [VNode.apply] at h
    split at h
    · rename_i ps r
      simp only [Except.ok.injEq, Prod.mk.injEq] at h
      obtain ⟨hv, _, _⟩ := h
      subst hv
      simp [VNode.stripRefs, VNode.allBound]
    · simp only [Except.ok.injEq, Prod.mk.injEq] at h
      obtain ⟨hv, _, _⟩ := h
      subst hv
      simp [VNode.stripRefs, VNode.allBound]
  | .vcomp ⟨d, r0⟩, p, prev, env, f, v2, f2, ops => by
    intro h
    simp only [VNode.apply] at h
    split at h
    · rename_i pd r
      simp only [Except.ok.injEq, Prod.mk.injEq] at h
      obtain ⟨hv, _, _⟩ := h
      subst hv
      simp [VNode.stripRefs, VNode.allBound]
    · simp only [Except.ok.injEq, Prod.mk.injEq] at h
      obtain ⟨hv, _, _⟩ := h
      subst hv
      simp [VNode.stripRefs, VNode.allBound]
  | .vref n, p, prev, env, f, v2, f2, ops => by
    intro h
    simp only [VNode.apply] at h
    exact absurd h (by simp)

theorem VNode.applyChildren_ok_shape :
    ∀ (ns os : List VNode) (p : Node) (env : ScopeEnv) (f : Nat)
      (ns2 : List VNode) (f2 : Nat) (ops : List DomOp),
      VNode.applyChildren ns os p env f = .ok (ns2, f2, ops) →
      VNode.stripRefsList ns2 = VNode.stripRefsList ns ∧ VNode.allBoundList ns2 = true
  | [], os, p, env, f, ns2, f2, ops => by
    intro h
    simp only [VNode.applyChildren, Except.ok.injEq, Prod.mk.injEq] at h
    obtain ⟨hv, _, _⟩ := h
    subst hv
    simp [VNode.stripRefsList, VNode.allBoundList]
  | n :: ns, [], p, env, f, ns2, f2, ops => by
    intro h
    simp only [VNode.applyChildren] at h
    split at h
    · rename_i n2 fr2 ops1 heq1
      split at h
      · rename_i nsb fr3 ops2 heq2
        simp only [Except.ok.injEq, Prod.mk.injEq] at h
        obtain ⟨hv, _, _⟩ := h
        subst hv
        obtain ⟨hs1, hb1⟩ := VNode.apply_ok_shape n p none env f n2 fr2 ops1 heq1
        obtain ⟨hs2, hb2⟩ := VNode.applyChildren_ok_shape ns [] p env fr2 nsb fr3 ops2 heq2
        simp [VNode.stripRefsList, VNode.allBoundList, hs1, hb1, hs2, hb2]
      · simp at h
    · simp at h
  | n :: ns, o :: os, p, env, f, ns2, f2, ops => by
    intro h
    simp only [VNode.applyChildren] at h
    split at h
    · rename_i n2 fr2 ops1 heq1
      split at h
      · rename_i nsb fr3 ops2 heq2
        simp only [Except.ok.injEq, Prod.mk.injEq] at h
        obtain ⟨hv, _, _⟩ := h
        subst hv
        obtain ⟨hs1, hb1⟩ := VNode.apply_ok_shape n p (some o) env f n2 fr2 ops1 heq1
        obtain ⟨hs2, hb2⟩ := VNode.applyChildren_ok_shape ns os p env fr2 nsb fr3 ops2 heq2
        simp [VNode.stripRefsList, VNode.allBoundList, hs1, hb1, hs2, hb2]
      · simp at h
    · simp at h

end

mutual

theorem VNode.apply_ok_noVRef :
    ∀ (v : VNode) (p : Node) (prev : Option VNode) (env : ScopeEnv) (f : Nat)
      (out : VNode × Nat × List DomOp),
      VNode.apply v p prev env f = .ok out → v.noVRef = true
  | .vtag (.mk tg a cs r0), p, prev, env, f, out => by
    intro h
    simp only [VNode.noVRef]
    simp only [VNode.apply] at h
    split at h
    · rename_i pv ptg pa pcs r
      split at h
      · split at h
        · rename_i cs2 fresh2 ops2 heq
          exact VNode.applyChildren_ok_noVRef cs pcs r env f _ heq
        · simp at h
      · split at h
        · rename_i cs2 fresh2 ops2 heq
          exact VNode.applyChildren_ok_noVRef cs [] f env (f + 1) _ heq
        · simp at h
    · split at h
      · rename_i cs2 fresh2 ops2 heq
        exact VNode.applyChildren_ok_noVRef cs [] f env (f + 1) _ heq
      · simp at h
  | .vtext ⟨s, r0⟩, p, prev, env, f, out => fun _ => rfl
  | .vcomp ⟨d, r0⟩, p, prev, env, f, out => fun _ => rfl
  | .vref n, p, prev, env, f, out => by
    intro h
    simp only [VNode.apply] at h
    exact absurd h (by simp)

theorem VNode.applyChildren_ok_noVRef :
    ∀ (ns os : List VNode) (p : Node) (env : ScopeEnv) (f : Nat)
      (out : List VNode × Nat × List DomOp),
      VNode.applyChildren ns os p env f = .ok out → VNode.noVRefList ns = true
  | [], os, p, env, f, out => fun _ => rfl
  | n :: ns, [], p, env, f, out => by
    intro h
    simp only [VNode.applyChildren] at h
    split at h
    · rename_i n2 fr2 ops1 heq1
      split at h
      · rename_i nsb fr3 ops2 heq2
        simp only [VNode.noVRefList, Bool.and_eq_true]
        exact ⟨VNode.apply_ok_noVRef n p none env f _ heq1,
          VNode.applyChildren_ok_noVRef ns [] p env fr2 _ heq2⟩
      · simp at h
    · simp at h
  | n :: ns, o :: os, p, env, f, out => by
    intro h
    simp only [VNode.applyChildren] at h
    split at h
    · rename_i n2 fr2 ops1 heq1
      split at h
      · rename_i nsb fr3 ops2 heq2
        simp only [VNode.noVRefList, Bool.and_eq_true]
        exact ⟨VNode.apply_ok_noVRef n p (some o) env f _ heq1,
          VNode.applyChildren_ok_noVRef ns os p env fr2 _ heq2⟩
      · simp at h
    · simp at h

end

mutual

theorem VNode.apply_noVRef_ok :
    ∀ (v : VNode) (p : Node) (prev : Option VNode) (env : ScopeEnv) (f : Nat),
      v.noVRef = true → ∃ out, VNode.apply v p prev env f = .ok out
  | .vtag (.mk tg a cs r0), p, prev, env, f => by
    intro h
    simp only [VNode.noVRef] at h
    simp only [VNode.apply]
    split
    · rename_i pv ptg pa pcs r
      by_cases htag : (ptg == tg) = true
      · simp only [htag, if_true]
        obtain ⟨⟨cs2, fr2, ops2⟩, heq⟩ := VNode.applyChildren_noVRef_ok cs pcs r env f h
        rw [heq]
        exact ⟨_, rfl⟩
      · simp only [htag, if_false]
        obtain ⟨⟨cs2, fr2, ops2⟩, heq⟩ :=
          VNode.applyChildren_noVRef_ok cs [] f env (f + 1) h
        rw [heq]
        exact ⟨_, rfl⟩
    · obtain ⟨⟨cs2, fr2, ops2⟩, heq⟩ :=
        VNode.applyChildren_noVRef_ok cs [] f env (f + 1) h
      rw [heq]
      exact ⟨_, rfl⟩
  | .vtext ⟨s, r0⟩, p, prev, env, f => by
    intro h
    simp only [VNode.apply]
    split
    · exact ⟨_, rfl⟩
    · exact ⟨_, rfl⟩
  | .vcomp ⟨d, r0⟩, p, prev, env, f => by
    intro h
    simp only [VNode.apply]
    split
    · exact ⟨_, rfl⟩
    · exact ⟨_, rfl⟩
  | .vref n, p, prev, env, f => by
    intro h
    simp [VNode.noVRef] at h

theorem VNode.applyChildren_noVRef_ok :
    ∀ (ns os : List VNode) (p : Node) (env : ScopeEnv) (f : Nat),
      VNode.noVRefList ns = true → ∃ out, VNode.applyChildren ns os p env f = .ok out
  | [], os, p, env, f => fun _ => ⟨_, rfl⟩
  | n :: ns, [], p, env, f => by
    intro h
    simp only [VNode.noVRefList, Bool.and_eq_true] at h
    simp only [VNode.applyChildren]
    obtain ⟨⟨n2, fr2, ops1⟩, heq1⟩ := VNode.apply_noVRef_ok n p none env f h.1
    rw [heq1]
    obtain ⟨⟨nsb, fr3, ops2⟩, heq2⟩ := VNode.applyChildren_noVRef_ok ns [] p env fr2 h.2
    exact ⟨(n2 :: nsb, fr3, ops1 ++ ops2), by simp [heq2]⟩
  | n :: ns, o :: os, p, env, f => by
    intro h
    simp only [VNode.noVRefList, Bool.and_eq_true] at h
    simp only [VNode.applyChildren]
    obtain ⟨⟨n2, fr2, ops1⟩, heq1⟩ := VNode.apply_noVRef_ok n p (some o) env f h.1
    rw [heq1]
    obtain ⟨⟨nsb, fr3, ops2⟩, heq2⟩ := VNode.applyChildren_noVRef_ok ns os p env fr2 h.2
    exact ⟨(n2 :: nsb, fr3, ops1 ++ ops2), by simp [heq2]⟩

end

/-- `creations` distributes over trace concatenation. -/
theorem creations_append (xs ys : List DomOp) :
    creations (xs ++ ys) = creations xs + creations ys := by
  simp [creations, List.countP_append]

/-- `removals` distributes over trace concatenation. -/
theorem removals_append (xs ys : List DomOp) :
    removals (xs ++ ys) = removals xs + removals ys := by
  simp [removals, List.countP_append]

mutual

theorem VNode.apply_same_no_churn :
    ∀ (s t : VNode) (p : Node) (env : ScopeEnv) (f : Nat),
      s.noVRef = true → s.stripRefs = t.stripRefs → t.allBound = true →
      ∃ s2 ops, VNode.apply s p (some t) env f = .ok (s2, f, ops) ∧
        creations ops = 0 ∧ removals ops = 0
  | .vtag (.mk tg a cs r0), t, p, env, f => by
    intro hnov hstrip hbound
    simp only [VNode.noVRef] at hnov
    cases t with
    | vtag pt =>
      cases pt with
      | mk tg2 a2 cs2 r2 =>
        simp only [VNode.stripRefs, VNode.vtag.injEq, VTag.mk.injEq, and_true] at hstrip
        obtain ⟨h1, h2, h3⟩ := hstrip
        subst h1
        subst h2
        simp only [VNode.allBound, Bool.and_eq_true, Option.isSome_iff_exists] at hbound
        obtain ⟨⟨r, hr⟩, hbcs⟩ := hbound
        subst hr
        obtain ⟨cs3, ops3, heq, hc, hrm⟩ :=
          VNode.applyChildren_same_no_churn cs cs2 r env f hnov h3 hbcs
        have happ : VNode.apply (.vtag (.mk tg a cs r0)) p
            (some (.vtag (.mk tg a cs2 (some r)))) env f =
            .ok (.vtag (.mk tg a cs3 (some r)), f, ops3) := by
          simp [VNode.apply, heq]
        exact ⟨_, _, happ, hc, hrm⟩
    | vtext x =>
      cases x with
      | mk s2 r2 => simp [VNode.stripRefs] at hstrip
    | vcomp c =>
      cases c with
      | mk d2 r2 => simp [VNode.stripRefs] at hstrip
    | vref n => simp [VNode.stripRefs] at hstrip
  | .vtext ⟨str, r0⟩, t, p, env, f => by
    intro hnov hstrip hbound
    cases t with
    | vtag pt =>
      cases pt with
      | mk tg2 a2 cs2 r2 => simp [VNode.stripRefs] at hstrip
    | vtext x =>
      cases x with
      | mk str2 r2 =>
        simp only [VNode.stripRefs, VNode.vtext.injEq, VText.mk.injEq, and_true] at hstrip
        subst hstrip
        simp only [VNode.allBound, Option.isSome_iff_exists] at hbound
        obtain ⟨r, hr⟩ := hbound
        subst hr
        exact ⟨.vtext ⟨str, some r⟩, [], by simp [VNode.apply], rfl, rfl⟩
    | vcomp c =>
      cases c with
      | mk d2 r2 => simp [VNode.stripRefs] at hstrip
    | vref n => simp [VNode.stripRefs] at hstrip
  | .vcomp ⟨d, r0⟩, t, p, env, f => by
    intro hnov hstrip hbound
    cases t with
    | vtag pt =>
      cases pt with
      | mk tg2 a2 cs2 r2 => simp [VNode.stripRefs] at hstrip
    | vtext x =>
      cases x with
      | mk str2 r2 => simp [VNode.stripRefs] at hstrip
    | vcomp c =>
      cases c with
      | mk d2 r2 =>
        simp only [VNode.allBound, Option.isSome_iff_exists] at hbound
        obtain ⟨r, hr⟩ := hbound
        subst hr
        exact ⟨.vcomp ⟨d, some r⟩, [], by simp [VNode.apply], rfl, rfl⟩
    | vref n => simp [VNode.stripRefs] at hstrip
  | .vref n, t, p, env, f => by
    intro hnov hstrip hbound
    simp [VNode.noVRef] at hnov

theorem VNode.applyChildren_same_no_churn :
    ∀ (ns os : List VNode) (p : Node) (env : ScopeEnv) (f : Nat),
      VNode.noVRefList ns = true →
      VNode.stripRefsList ns = VNode.stripRefsList os →
      VNode.allBoundList os = true →
      ∃ ns2 ops, VNode.applyChildren ns os p env f = .ok (ns2, f, ops) ∧
        creations ops = 0 ∧ removals ops = 0
  | [], os, p, env, f => by
    intro hnov hstrip hbound
    cases os with
    | nil => exact ⟨[], [], rfl, rfl, rfl⟩
    | cons o os2 => simp [VNode.stripRefsList] at hstrip
  | n :: ns, os, p, env, f => by
    intro hnov hstrip hbound
    cases os with
    | nil => simp [VNode.stripRefsList] at hstrip
    | cons o os2 =>
      simp only [VNode.stripRefsList, List.cons.injEq] at hstrip
      simp only [VNode.noVRefList, Bool.and_eq_true] at hnov
      simp only [VNode.allBoundList, Bool.and_eq_true] at hbound
      obtain ⟨n2, ops1, heq1, hc1, hr1⟩ :=
        VNode.apply_same_no_churn n o p env f hnov.1 hstrip.1 hbound.1
      obtain ⟨ns2, ops2, heq2, hc2, hr2⟩ :=
        VNode.applyChildren_same_no_churn ns os2 p env f hnov.2 hstrip.2 hbound.2
      have happ : VNode.applyChildren (n :: ns) (o :: os2) p env f =
          .ok (n2 :: ns2, f, ops1 ++ ops2) := by
        simp [VNode.applyChildren, heq1, heq2]
      refine ⟨_, _, happ, ?_, ?_⟩
      · rw [creations_append, hc1, hc2]
      · rw [removals_append, hr1, hr2]

end

/-- C5 counterexample: the claim quantifies over every node, but at the
concrete input `ExternalRef(node 0)` (with parent `1`, no previous node, any
environment) `apply` fails fatally — no live target node is produced or
updated, and no binding is returned. -/
theorem apply_returns_binding_counterexample :
    VNode.apply (.vref 0) 1 none ⟨⟩ 0 = .error "node can\x27t be rendered now" :=
  rfl

/-- C5 (amended): for every Element, Text or Component node whose subtree
contains no ExternalRef node, and every parent, previous node and rendering
environment, `apply` succeeds, producing/updating a live target node; the
binding to it is recorded in the node itself and retrievable via `get_node`
(the source's `apply` returns unit, not the handle). -/
theorem apply_establishes_binding (v : VNode) (p : Node) (prev : Option VNode)
    (env : ScopeEnv) (f : Nat) (h : v.noVRef = true) :
    ∃ v2 f2 ops r, VNode.apply v p prev env f = .ok (v2, f2, ops) ∧
      v2.get_node = some r := by
  obtain ⟨⟨v2, f2, ops⟩, heq⟩ := VNode.apply_noVRef_ok v p prev env f h
  obtain ⟨_, hbound⟩ := VNode.apply_ok_shape v p prev env f v2 f2 ops heq
  obtain ⟨r, hr⟩ := allBound_get_node v2 hbound
  exact ⟨v2, f2, ops, r, heq, hr⟩

/-- Witness for C5 (amended): a fresh Text node mounts successfully and ends
bound to a live target node. -/
theorem apply_establishes_binding_witness :
    ∃ v2 f2 ops r, VNode.apply (.vtext ⟨"a", none⟩) 0 none ⟨⟩ 0 = .ok (v2, f2, ops) ∧
      VNode.get_node v2 = some r :=
  apply_establishes_binding (.vtext ⟨"a", none⟩) 0 none ⟨⟩ 0 rfl

/-- C8: reconciling a tree with no previous tree and then reconciling a
fresh instance with the same content (`stripRefs` of the tree) against the
result performs zero target-node creations and zero removals beyond the
first pass — reconciliation reaches an idempotent steady state. -/
theorem apply_idempotent_steady_state (T : VNode) (p : Node) (env : ScopeEnv)
    (n0 : Nat) (T2 : VNode) (n1 : Nat) (ops1 : List DomOp)
    (h : VNode.apply T p none env n0 = .ok (T2, n1, ops1)) :
    ∃ T3 ops2, VNode.apply T.stripRefs p (some T2) env n1 = .ok (T3, n1, ops2) ∧
      creations ops2 = 0 ∧ removals ops2 = 0 := by
  obtain ⟨hshape, hbound⟩ := VNode.apply_ok_shape T p none env n0 T2 n1 ops1 h
  have hnov : T.stripRefs.noVRef = true := by
    rw [VNode.noVRef_stripRefs]
    exact VNode.apply_ok_noVRef T p none env n0 _ h
  have hstrip : T.stripRefs.stripRefs = T2.stripRefs := by
    rw [VNode.stripRefs_stripRefs]
    exact hshape.symm
  exact VNode.apply_same_no_churn T.stripRefs T2 p env n1 hnov hstrip hbound

/-- Witness for C8: a concrete first pass mounts `Text("a")`; the second
pass over the same content emits no creations and no removals. -/
theorem apply_idempotent_steady_state_witness :
    ∃ T3 ops2, VNode.apply (VNode.stripRefs (.vtext ⟨"a", none⟩)) 0
        (some (.vtext ⟨"a", some 0⟩)) ⟨⟩ 1 = .ok (T3, 1, ops2) ∧
      creations ops2 = 0 ∧ removals ops2 = 0 :=
  apply_idempotent_steady_state (.vtext ⟨"a", none⟩) 0 ⟨⟩ 0
    (.vtext ⟨"a", some 0⟩) 1 [DomOp.createNode 0] rfl

end VDom
